import Mathlib

/-!
Verification of the CSV-to-SVG point-cloud-to-path core.

Shallow embedding of `scripts/csvTosvg.py`: sample preparation (schema check,
optional U-wrap, NaN drop, range filter, duplicate removal, device-space
scaling), proximity-based segmentation, and the result classification of
`csv_to_svg`. Numeric cells are exact rationals. A missing CSV cell is read
by pandas as NaN and removed by `dropna`; in the basic model (`RawRow`,
`prepare`, `csv_to_svg`) such a cell is `none`. A non-numeric text cell is
different: `pd.read_csv` keeps it as a Python string in an object-dtype
column, `dropna` does not remove it, and the column arithmetic of line 22
(`df["u"] - 1.0`) or the column comparisons of line 27 (`df["u"] >= 0.0` ...)
raise `TypeError` on it; the refined model (`Cell`, `csv_to_svgE`) carries
such cells and that error path. The float comparison `math.sqrt d2 < t` is
embedded as the equivalent exact condition `0 < t ∧ d2 < t * t` (see
`closeB_iff_sqrt`).
-/

namespace CsvToSvg

/-- Exact rational scalars standing for the Python floats. -/
abbrev Q := ℚ

/-- A device-space point `(x, y)`, as produced by the scaling step. -/
abbrev Pt := Q × Q

/-- One input row projected to its `u` and `v` cells, in the basic model of
datasets whose cells are numeric or missing: `none` is a missing cell (NaN
after `pd.read_csv`, removed by `dropna`). A non-numeric text cell is not
`none` — pandas keeps it as a string and the column operations raise on it;
rows with such cells are treated by the refined model (`Cell`, `RawRowE`,
`csv_to_svgE`) below. -/
abbrev RawRow := Option Q × Option Q

/-- Squared Euclidean distance: the radicand of `uv_distance` in the source
(`math.sqrt((p1[0]-p2[0])**2 + (p1[1]-p2[1])**2)`). -/
def uv_distance_sq (p q : Pt) : Q := (p.1 - q.1) ^ 2 + (p.2 - q.2) ^ 2

/-- The loop condition `uv_distance(points[i-1], points[i]) < max_dist * width`
of the source, with threshold `t`, embedded exactly over `ℚ`:
`sqrt d2 < t ↔ 0 < t ∧ d2 < t * t` (proved in `closeB_iff_sqrt`). -/
def closeB (t : Q) (p q : Pt) : Bool :=
  decide (0 < t ∧ uv_distance_sq p q < t * t)

/-- The column operation `df["u"] = df["u"] - 1.0` on one row: subtraction
maps over the optional cell (NaN minus a number stays NaN). -/
def wrapRow (r : RawRow) : RawRow := (r.1.map (fun u => u - 1), r.2)

/-- Row-wise effect of `df[["u","v"]].dropna()`: keep the row only when both
cells are numeric. -/
def dropnaRow : RawRow → Option Pt
  | (some u, some v) => some (u, v)
  | _ => none

/-- The range mask `(u >= 0) & (u <= 1) & (v >= 0) & (v <= 1)` of the source. -/
def inRange (p : Pt) : Bool :=
  decide (0 ≤ p.1 ∧ p.1 ≤ 1 ∧ 0 ≤ p.2 ∧ p.2 ≤ 1)

/-- Worker for `dedupKeepFirst`: `seen` holds the values already retained. -/
def dedupGo : List Pt → List Pt → List Pt
  | _, [] => []
  | seen, p :: rest =>
      if p ∈ seen then dedupGo seen rest else p :: dedupGo (p :: seen) rest

/-- The step `df.drop_duplicates()`: remove rows equal to an earlier row,
keeping the first occurrence, in order. -/
def dedupKeepFirst (l : List Pt) : List Pt := dedupGo [] l

/-- The scaling step `(u * width, (1 - v) * height)` when `flip_vertical` is
set, else `(u * width, v * height)`. -/
def toDevice (flip : Bool) (width height : Q) (p : Pt) : Pt :=
  (p.1 * width, if flip then (1 - p.2) * height else p.2 * height)

/-- Sample preparation: the body of `csv_to_svg` between the schema check and
the segmentation loop, stage by stage as in the source. -/
def prepare (wrap_u flip_vertical : Bool) (width height : Q)
    (rows : List RawRow) : List Pt :=
  let rows1 := if wrap_u then rows.map wrapRow else rows
  let vals := (rows1.filterMap dropnaRow).filter inRange
  (dedupKeepFirst vals).map (toDevice flip_vertical width height)

/-- What `prepare` keeps of a single row: wrap (if requested), drop NaN,
then the `[0,1]` range filter. `prepare` is this per row, then duplicate
removal and scaling (`prepare_eq_filterMap`). -/
def retainedRow (wrap_u : Bool) (r : RawRow) : Option Pt :=
  (dropnaRow (if wrap_u then wrapRow r else r)).filter inRange

/-- The segmentation loop of the source.  The current run is carried reversed:
`c` is its most recently appended point (`points[i-1]`), `cs` the earlier ones.
On each point: append when strictly within threshold, otherwise emit the run
(only when it has more than one point) and reseed; the final run is evaluated
the same way. -/
def segLoopRev (t : Q) : Pt → List Pt → List Pt → List (List Pt)
  | c, cs, [] => if 1 < (c :: cs).length then [(c :: cs).reverse] else []
  | c, cs, p :: rest =>
      if closeB t c p then
        segLoopRev t p (c :: cs) rest
      else
        (if 1 < (c :: cs).length then [(c :: cs).reverse] else [])
          ++ segLoopRev t p [] rest

/-- The segmenter: group points into runs of consecutive points strictly
within `max_dist * width` of their immediate predecessor; a run of one point
is discarded.  An empty input yields no segments (the source returns before
the loop when `len(points) == 0`). -/
def segment (points : List Pt) (max_dist width : Q) : List (List Pt) :=
  match points with
  | [] => []
  | p :: rest => segLoopRev (max_dist * width) p [] rest

/-- The proximity relation of the segmenter as a `Prop`, for chain
statements. -/
def CloseRel (t : Q) (p q : Pt) : Prop := closeB t p q = true

/-- The data reported by the schema-check failure path of the source: the
column names the message demands (`'u' and 'v'`) and the columns actually
found (`list(df.columns)`). -/
structure SchemaError where
  required : List String
  found : List String
deriving DecidableEq

/-- Classified outcome of one `csv_to_svg` run: the schema-check failure
(message printed, no file written), the empty-data warning (no file written),
or the written document's segments. -/
inductive PrepResult where
  | schemaError (e : SchemaError)
  | emptyWarning
  | ok (segments : List (List Pt))
deriving DecidableEq

/-- The function `csv_to_svg`, with the dataframe abstracted to its column
names and the `u`/`v` cells of its rows. -/
def csv_to_svg (cols : List String) (rows : List RawRow)
    (max_dist width height : Q) (flip_vertical wrap_u : Bool) : PrepResult :=
  if "u" ∉ cols ∨ "v" ∉ cols then
    .schemaError ⟨["u", "v"], cols⟩
  else
    let points := prepare wrap_u flip_vertical width height rows
    if points.isEmpty then .emptyWarning
    else .ok (segment points max_dist width)

/-- The bytes written at the destination, when any: only the `.ok` outcome
reaches the `ElementTree(svg).write(svg_path)` line. -/
def writtenDocument : PrepResult → Option (List (List Pt))
  | .ok segs => some segs
  | _ => none

/-- The duplicate-containing example rows of the spec's test property:
`[(0.1, 0.1), (0.1, 0.1), (0.2, 0.2)]`. -/
def exampleRows : List RawRow :=
  [(some (1/10), some (1/10)), (some (1/10), some (1/10)),
   (some (2/10), some (2/10))]

/-- A `u` or `v` cell in the refined model of the dataframe: `pd.read_csv`
parses a numeric token to a float (`num`), reads an empty/NA cell as NaN
(`na`), and keeps any other token as a Python string in an object-dtype
column (`txt`). -/
inductive Cell where
  | num (q : Q)
  | na
  | txt
deriving DecidableEq

/-- Faithfulness of `closeB`: over the reals, `sqrt d2 < t` is equivalent to
the exact rational test `0 < t ∧ d2 < t * t` used in the embedding. -/
lemma closeB_iff_sqrt (t : Q) (p q : Pt) :
    closeB t p q = true ↔ Real.sqrt ((uv_distance_sq p q : Q) : ℝ) < (t : ℝ) := by
  simp only [closeB, decide_eq_true_eq]
  constructor
  · rintro ⟨ht, hd⟩
    have ht' : (0 : ℝ) < (t : ℝ) := by exact_mod_cast ht
    rw [Real.sqrt_lt' ht']
    have hd' : ((uv_distance_sq p q : Q) : ℝ) < (t : ℝ) * (t : ℝ) := by exact_mod_cast hd
    nlinarith [hd']
  · intro h
    have ht' : (0 : ℝ) < (t : ℝ) := lt_of_le_of_lt (Real.sqrt_nonneg _) h
    have hd' := (Real.sqrt_lt' ht').1 h
    refine ⟨by exact_mod_cast ht', ?_⟩
    have : ((uv_distance_sq p q : Q) : ℝ) < (t : ℝ) * (t : ℝ) := by nlinarith [hd']
    exact_mod_cast this

lemma mem_dedupGo (x : Pt) (l : List Pt) :
    ∀ seen, x ∈ dedupGo seen l ↔ x ∈ l ∧ x ∉ seen := by
  induction l with
  | nil => intro seen; simp [dedupGo]
  | cons p rest ih =>
      intro seen
      by_cases hp : p ∈ seen
      · rw [dedupGo, if_pos hp, ih seen]
        constructor
        · rintro ⟨hr, hs⟩; exact ⟨List.mem_cons_of_mem _ hr, hs⟩
        · rintro ⟨hr, hs⟩
          rcases List.mem_cons.1 hr with h | h
          · subst h; exact absurd hp hs
          · exact ⟨h, hs⟩
      · rw [dedupGo, if_neg hp]
        constructor
        · intro hx
          rcases List.mem_cons.1 hx with h | h
          · subst h; exact ⟨List.mem_cons_self _ _, hp⟩
          · have hrec := (ih (p :: seen)).1 h
            exact ⟨List.mem_cons_of_mem _ hrec.1,
              fun hs => hrec.2 (List.mem_cons_of_mem _ hs)⟩
        · rintro ⟨hr, hs⟩
          rcases List.mem_cons.1 hr with h | h
          · subst h; exact List.mem_cons_self _ _
          · by_cases hxp : x = p
            · subst hxp; exact List.mem_cons_self _ _
            · refine List.mem_cons_of_mem _ ((ih (p :: seen)).2 ⟨h, ?_⟩)
              intro hmem
              rcases List.mem_cons.1 hmem with h' | h'
              · exact hxp h'
              · exact hs h'

lemma dedupGo_sublist (l : List Pt) : ∀ seen, (dedupGo seen l).Sublist l := by
  induction l with
  | nil => intro seen; simp [dedupGo]
  | cons p rest ih =>
      intro seen
      by_cases hp : p ∈ seen
      · rw [dedupGo, if_pos hp]
        exact (ih seen).trans (List.sublist_cons_self p rest)
      · rw [dedupGo, if_neg hp]
        exact List.Sublist.cons₂ p (ih (p :: seen))

lemma dedupGo_nodup (l : List Pt) : ∀ seen, (dedupGo seen l).Nodup := by
  induction l with
  | nil => intro seen; simp [dedupGo]
  | cons p rest ih =>
      intro seen
      by_cases hp : p ∈ seen
      · rw [dedupGo, if_pos hp]; exact ih seen
      · rw [dedupGo, if_neg hp]
        refine List.nodup_cons.2 ⟨?_, ih (p :: seen)⟩
        intro hmem
        exact ((mem_dedupGo p rest (p :: seen)).1 hmem).2 (List.mem_cons_self _ _)

lemma segment_cons (p : Pt) (rest : List Pt) (md w : Q) :
    segment (p :: rest) md w = segLoopRev (md * w) p [] rest := rfl

lemma length_of_mem_segLoopRev (t : Q) (rest : List Pt) :
    ∀ (c : Pt) (cs s : List Pt), s ∈ segLoopRev t c cs rest → 2 ≤ s.length := by
  induction rest with
  | nil =>
      intro c cs s hs
      rw [segLoopRev] at hs
      split at hs
      · rename_i hlen
        simp only [List.mem_singleton] at hs
        subst hs
        simp only [List.length_reverse]
        omega
      · simp at hs
  | cons p rs ih =>
      intro c cs s hs
      rw [segLoopRev] at hs
      split at hs
      · exact ih p (c :: cs) s hs
      · rcases List.mem_append.1 hs with h1 | h2
        · split at h1
          · rename_i hlen
            simp only [List.mem_singleton] at h1
            subst h1
            simp only [List.length_reverse]
            omega
          · simp at h1
        · exact ih p [] s h2

lemma chain'_of_mem_segLoopRev (t : Q) (rest : List Pt) :
    ∀ (c : Pt) (cs : List Pt), List.Chain' (CloseRel t) ((c :: cs).reverse) →
      ∀ s ∈ segLoopRev t c cs rest, List.Chain' (CloseRel t) s := by
  induction rest with
  | nil =>
      intro c cs hch s hs
      rw [segLoopRev] at hs
      split at hs
      · simp only [List.mem_singleton] at hs; subst hs; exact hch
      · simp at hs
  | cons p rs ih =>
      intro c cs hch s hs
      rw [segLoopRev] at hs
      split at hs
      · rename_i hclose
        refine ih p (c :: cs) ?_ s hs
        rw [List.reverse_cons]
        refine List.Chain'.append hch (List.chain'_singleton p) ?_
        intro x hx y hy
        rw [List.getLast?_reverse] at hx
        simp only [List.head?_cons, Option.mem_def, Option.some.injEq] at hx hy
        subst hx; subst hy
        exact hclose
      · rcases List.mem_append.1 hs with h1 | h2
        · split at h1
          · simp only [List.mem_singleton] at h1; subst h1; exact hch
          · simp at h1
        · exact ih p [] (by simp) s h2

lemma segLoopRev_all_close (t : Q) (rest : List Pt) :
    ∀ (c : Pt) (cs : List Pt), List.Chain' (CloseRel t) (c :: rest) →
      segLoopRev t c cs rest =
        if 1 < cs.length + 1 + rest.length then [(c :: cs).reverse ++ rest] else [] := by
  induction rest with
  | nil =>
      intro c cs _
      rw [segLoopRev]
      simp
  | cons p rs ih =>
      intro c cs hch
      rw [List.chain'_cons] at hch
      rw [segLoopRev, if_pos (show closeB t c p = true from hch.1),
        ih p (c :: cs) hch.2]
      rw [if_pos (by simp only [List.length_cons]; omega),
        if_pos (by simp only [List.length_cons]; omega)]
      simp

lemma na_ne_num (q : Q) : Cell.na ≠ Cell.num q := fun h => Cell.noConfusion h

lemma na_ne_txt : Cell.na ≠ Cell.txt := fun h => Cell.noConfusion h

lemma txt_ne_num (q : Q) : Cell.txt ≠ Cell.num q := fun h => Cell.noConfusion h

lemma txt_ne_na : Cell.txt ≠ Cell.na := fun h => Cell.noConfusion h

lemma prepare_eq_filterMap (wrap_u flip_vertical : Bool) (w h : Q)
    (rows : List RawRow) :
    prepare wrap_u flip_vertical w h rows
      = (dedupKeepFirst (rows.filterMap (retainedRow wrap_u))).map
          (toDevice flip_vertical w h) := by
  unfold prepare retainedRow
  cases wrap_u with
  | false =>
      simp only [Bool.false_eq_true, if_false]
      rw [List.filter_filterMap]
  | true =>
      simp only [if_true]
      rw [List.filterMap_map, List.filter_filterMap]
      rfl

/-! ## Claim theorems -/

/-- C1: two consecutive prepared points whose Euclidean distance is exactly
`max_dist * width` are not appended to the same run: the proximity test is
strict, so at the exact threshold the current run is closed (emitted only when
it has more than one point) and the new point seeds a fresh run; in particular
two such points alone yield no shared Segment. -/
theorem threshold_boundary_splits (md w : Q) (c p : Pt) (cs rest : List Pt)
    (hd : uv_distance_sq c p = (md * w) * (md * w)) :
    closeB (md * w) c p = false
    ∧ segLoopRev (md * w) c cs (p :: rest)
        = (if 1 < (c :: cs).length then [(c :: cs).reverse] else [])
          ++ segLoopRev (md * w) p [] rest
    ∧ segment [c, p] md w = [] := by
  have hcl : closeB (md * w) c p = false := by
    simp only [closeB, decide_eq_false_iff_not]
    rintro ⟨-, hlt⟩
    rw [hd] at hlt
    exact lt_irrefl _ hlt
  refine ⟨hcl, ?_, ?_⟩
  · rw [segLoopRev, if_neg (by simp [hcl])]
  · rw [segment_cons, segLoopRev, if_neg (by simp [hcl])]
    simp [segLoopRev]

/-- Witness for C1 at `max_dist = 5`, `width = 1`, points `(0,0)` and `(3,4)`
(distance exactly `5`). -/
theorem threshold_boundary_splits_witness :
    closeB (5 * 1) ((0 : Q), (0 : Q)) ((3 : Q), (4 : Q)) = false
    ∧ segment [((0 : Q), (0 : Q)), ((3 : Q), (4 : Q))] 5 1 = [] := by
  have h := threshold_boundary_splits 5 1 (0, 0) (3, 4) [] []
    (by norm_num [uv_distance_sq])
  exact ⟨h.1, h.2.2⟩

/-- C2: every Segment emitted by the segmenter has at least 2 points, and an
input of zero or one point yields zero segments. -/
theorem segments_have_at_least_two_points :
    (∀ (points : List Pt) (md w : Q) (s : List Pt),
        s ∈ segment points md w → 2 ≤ s.length)
    ∧ (∀ (points : List Pt) (md w : Q),
        points.length ≤ 1 → segment points md w = []) := by
  constructor
  · intro points md w s hs
    cases points with
    | nil => simp [segment] at hs
    | cons p rest => exact length_of_mem_segLoopRev (md * w) rest p [] s hs
  · intro points md w hlen
    cases points with
    | nil => rfl
    | cons p rest =>
        cases rest with
        | nil => rfl
        | cons q rs => simp only [List.length_cons] at hlen; omega

/-- Witness for C2: a concrete emitted Segment of length 2, and a concrete
one-point input yielding zero segments. -/
theorem segments_have_at_least_two_points_witness :
    2 ≤ ([((0 : Q), (0 : Q)), ((1 : Q), (0 : Q))] : List Pt).length
    ∧ segment [((0 : Q), (0 : Q))] 1 1 = [] := by
  have hseg : segment [((0 : Q), (0 : Q)), ((1 : Q), (0 : Q))] 1 2
      = [[((0 : Q), (0 : Q)), ((1 : Q), (0 : Q))]] := by
    norm_num [segment, segLoopRev, closeB, uv_distance_sq]
  refine ⟨segments_have_at_least_two_points.1 [(0, 0), (1, 0)] 1 2
      [(0, 0), (1, 0)] ?_,
    segments_have_at_least_two_points.2 [(0, 0)] 1 1 (by simp)⟩
  rw [hseg]
  exact List.mem_singleton_self _

/-- C3: a dataset missing column `u` or column `v` makes `csv_to_svg` stop on
the schema-failure path, whose report names the missing column among the
required ones and lists the columns actually present, and no document is
written. -/
theorem schema_error_on_missing_column (cols : List String) (rows : List RawRow)
    (md w h : Q) (f wr : Bool) (hmiss : "u" ∉ cols ∨ "v" ∉ cols) :
    ∃ e : SchemaError,
      csv_to_svg cols rows md w h f wr = .schemaError e
      ∧ ("u" ∉ cols → "u" ∈ e.required) ∧ ("v" ∉ cols → "v" ∈ e.required)
      ∧ e.found = cols
      ∧ writtenDocument (csv_to_svg cols rows md w h f wr) = none := by
  have hres : csv_to_svg cols rows md w h f wr = .schemaError ⟨["u", "v"], cols⟩ := by
    unfold csv_to_svg
    rw [if_pos hmiss]
  exact ⟨⟨["u", "v"], cols⟩, hres, fun _ => by simp, fun _ => by simp, rfl,
    by rw [hres]; rfl⟩

/-- Witness for C3: columns `["u", "x"]` (column `v` missing). -/
theorem schema_error_on_missing_column_witness :
    ∃ e : SchemaError,
      csv_to_svg ["u", "x"] [] 1 1 1 false false = .schemaError e
      ∧ ("u" ∉ (["u", "x"] : List String) → "u" ∈ e.required)
      ∧ ("v" ∉ (["u", "x"] : List String) → "v" ∈ e.required)
      ∧ e.found = ["u", "x"]
      ∧ writtenDocument (csv_to_svg ["u", "x"] [] 1 1 1 false false) = none :=
  schema_error_on_missing_column ["u", "x"] [] 1 1 1 false false
    (Or.inr (by decide))

/-- C5 counterexample: on the spec's own example rows
`[(0.1, 0.1), (0.1, 0.1), (0.2, 0.2)]` with `max_dist = 0.05` and
`width = height = 1000`, the duplicate row is indeed collapsed (2 prepared
points), but the two deduplicated points are `100√2 ≈ 141.4` apart in device
space — not strictly below the threshold `50` — so the run splits and the
output has zero Segments, not one Segment of 2 points. -/
theorem duplicate_example_zero_segments :
    (prepare false false 1000 1000 exampleRows).length = 2
    ∧ segment (prepare false false 1000 1000 exampleRows) (5/100) 1000 = []
    ∧ csv_to_svg ["u", "v"] exampleRows (5/100) 1000 1000 false false
        = .ok [] := by
  have hprep : prepare false false 1000 1000 exampleRows = [(100, 100), (200, 200)] := by
    norm_num [prepare, exampleRows, dropnaRow, inRange, dedupKeepFirst, dedupGo,
      toDevice, List.filterMap_cons, List.filter_cons, Prod.mk.injEq]
  have hseg0 : segment [((100 : Q), (100 : Q)), ((200 : Q), (200 : Q))] (5/100) 1000 = [] := by
    norm_num [segment, segLoopRev, closeB, uv_distance_sq]
  have hcols : ¬("u" ∉ (["u", "v"] : List String) ∨ "v" ∉ (["u", "v"] : List String)) := by
    decide
  refine ⟨by rw [hprep]; rfl, by rw [hprep]; exact hseg0, ?_⟩
  unfold csv_to_svg
  rw [if_neg hcols]
  simp only [hprep, hseg0, List.isEmpty_cons, if_false, Bool.false_eq_true]

/-- C5 amended: duplicate removal keeps exactly one copy of each value, as an
order-preserving subsequence of its input (first occurrence kept); on the
example rows this yields 2 prepared points (not 3), but the resulting two
points are farther apart than the threshold `0.05 * 1000`, so the example
yields zero Segments rather than one Segment of 2 points. -/
theorem dedup_collapses_duplicates_example :
    (∀ l : List Pt,
        (dedupKeepFirst l).Nodup
        ∧ (dedupKeepFirst l).Sublist l
        ∧ ∀ x : Pt, x ∈ dedupKeepFirst l ↔ x ∈ l)
    ∧ prepare false false 1000 1000 exampleRows = [(100, 100), (200, 200)]
    ∧ segment (prepare false false 1000 1000 exampleRows) (5/100) 1000 = [] := by
  refine ⟨fun l => ⟨dedupGo_nodup l [], dedupGo_sublist l [], fun x => ?_⟩, ?_, ?_⟩
  · rw [dedupKeepFirst, mem_dedupGo x l []]
    simp
  · norm_num [prepare, exampleRows, dropnaRow, inRange, dedupKeepFirst, dedupGo,
      toDevice, List.filterMap_cons, List.filter_cons, Prod.mk.injEq]
  · norm_num [prepare, exampleRows, dropnaRow, inRange, dedupKeepFirst, dedupGo,
      toDevice, List.filterMap_cons, List.filter_cons, Prod.mk.injEq,
      segment, segLoopRev, closeB, uv_distance_sq]

/-- C6: running `prepare` with `wrap_u = true` equals running it with
`wrap_u = false` on the data with `1.0` subtracted from every `u` up front;
in particular a row with `u = 1.3` is treated exactly like a raw `u = 0.3`
row, both yielding the device point `(300, 500)` at `v = 0.5`. -/
theorem wrap_u_pre_shift_equiv :
    (∀ (flip_vertical : Bool) (w h : Q) (rows : List RawRow),
        prepare true flip_vertical w h rows
          = prepare false flip_vertical w h (rows.map wrapRow))
    ∧ prepare true false 1000 1000 [(some (13/10), some (1/2))]
        = prepare false false 1000 1000 [(some (3/10), some (1/2))]
    ∧ prepare true false 1000 1000 [(some (13/10), some (1/2))] = [(300, 500)] := by
  refine ⟨fun flip_vertical w h rows => rfl, ?_, ?_⟩ <;>
    norm_num [prepare, wrapRow, dropnaRow, inRange, dedupKeepFirst, dedupGo,
      toDevice, List.filterMap_cons, List.filter_cons, Prod.mk.injEq]

/-- C7: a retained sample `(u, v)` is mapped to `x = u * width` and
`y = (1 - v) * height` when `flip_vertical` is set, else `y = v * height`. -/
theorem device_mapping_flip (u v w h : Q)
    (hu0 : 0 ≤ u) (hu1 : u ≤ 1) (hv0 : 0 ≤ v) (hv1 : v ≤ 1) :
    prepare false true w h [(some u, some v)] = [(u * w, (1 - v) * h)]
    ∧ prepare false false w h [(some u, some v)] = [(u * w, v * h)] := by
  have hin : inRange (u, v) = true := by
    simp only [inRange, decide_eq_true_eq]
    exact ⟨hu0, hu1, hv0, hv1⟩
  constructor <;>
    simp [prepare, dropnaRow, List.filterMap_cons, List.filter_cons, hin,
      dedupKeepFirst, dedupGo, toDevice]

/-- Witness for C7: `(u, v) = (0.5, 0.2)`, `width = height = 1000` gives
`y = 800` flipped and `y = 200` unflipped. -/
theorem device_mapping_flip_witness :
    prepare false true 1000 1000 [(some (1/2), some (1/5))] = [(500, 800)]
    ∧ prepare false false 1000 1000 [(some (1/2), some (1/5))] = [(500, 200)] := by
  have h := device_mapping_flip (1/2) (1/5) 1000 1000
    (by norm_num) (by norm_num) (by norm_num) (by norm_num)
  constructor
  · rw [h.1]; norm_num
  · rw [h.2]; norm_num

/-- C8: segmentation is idempotent on its own output — every emitted Segment,
re-segmented with the same `max_dist` and `width`, comes back as exactly that
single Segment; more generally any sequence of at least two points whose
consecutive pairs are all strictly within the threshold yields exactly one
Segment spanning the whole sequence. -/
theorem segment_idempotent :
    (∀ (points : List Pt) (md w : Q) (s : List Pt),
        s ∈ segment points md w → segment s md w = [s])
    ∧ (∀ (points : List Pt) (md w : Q), 2 ≤ points.length →
        List.Chain' (CloseRel (md * w)) points → segment points md w = [points]) := by
  have hgen : ∀ (points : List Pt) (md w : Q), 2 ≤ points.length →
      List.Chain' (CloseRel (md * w)) points → segment points md w = [points] := by
    intro points md w h2 hch
    cases points with
    | nil => simp at h2
    | cons p rest =>
        cases rest with
        | nil => simp at h2
        | cons q rs =>
            rw [segment_cons, segLoopRev_all_close (md * w) (q :: rs) p [] hch]
            rw [if_pos (by simp only [List.length_nil, List.length_cons]; omega)]
            simp
  refine ⟨?_, hgen⟩
  intro points md w s hs
  cases points with
  | nil => simp [segment] at hs
  | cons p rest =>
      have hlen := length_of_mem_segLoopRev (md * w) rest p [] s hs
      have hch := chain'_of_mem_segLoopRev (md * w) rest p [] (by simp) s hs
      exact hgen s md w hlen hch

/-- Witness for C8: re-segmenting the single Segment emitted for
`[(0,0), (1,0)]` returns it, and a two-point all-within-threshold sequence
yields the single spanning Segment. -/
theorem segment_idempotent_witness :
    segment [((0 : Q), (0 : Q)), ((1 : Q), (0 : Q))] 1 2
      = [[((0 : Q), (0 : Q)), ((1 : Q), (0 : Q))]]
    ∧ segment [((0 : Q), (0 : Q)), ((0 : Q), (1 : Q))] 1 2
      = [[((0 : Q), (0 : Q)), ((0 : Q), (1 : Q))]] := by
  constructor
  · refine segment_idempotent.1 [(0, 0), (1, 0)] 1 2 [(0, 0), (1, 0)] ?_
    have hseg : segment [((0 : Q), (0 : Q)), ((1 : Q), (0 : Q))] 1 2
        = [[((0 : Q), (0 : Q)), ((1 : Q), (0 : Q))]] := by
      norm_num [segment, segLoopRev, closeB, uv_distance_sq]
    rw [hseg]
    exact List.mem_singleton_self _
  · refine segment_idempotent.2 [(0, 0), (0, 1)] 1 2 (by simp) ?_
    rw [List.chain'_pair]
    show closeB (1 * 2) (0, 0) (0, 1) = true
    norm_num [closeB, uv_distance_sq]

/-- C10: with `wrap_u` on, the `1.0` subtraction happens before the range
filter: `prepare` keeps per row exactly `retainedRow true`, a row whose raw
`u` is strictly below `1` is never retained, and any retained row has raw
`u ∈ [1, 2]` and `v ∈ [0, 1]`. -/
theorem wrap_applied_before_range_filter :
    (∀ (flip_vertical : Bool) (w h : Q) (rows : List RawRow),
        prepare true flip_vertical w h rows
          = (dedupKeepFirst (rows.filterMap (retainedRow true))).map
              (toDevice flip_vertical w h))
    ∧ (∀ (r : RawRow) (u : Q), r.1 = some u → u < 1 → retainedRow true r = none)
    ∧ (∀ (r : RawRow) (p : Pt), retainedRow true r = some p →
        ∃ u v : Q, r = (some u, some v) ∧ 1 ≤ u ∧ u ≤ 2 ∧ 0 ≤ v ∧ v ≤ 1) := by
  refine ⟨fun flip_vertical w h rows => prepare_eq_filterMap true flip_vertical w h rows,
    ?_, ?_⟩
  · rintro ⟨ou, ov⟩ u hu hlt
    simp only at hu
    subst hu
    cases ov with
    | none => simp [retainedRow, wrapRow, dropnaRow, Option.filter]
    | some v =>
        have hfalse : inRange (u - 1, v) = false := by
          simp only [inRange, decide_eq_false_iff_not]
          rintro ⟨h0, -⟩
          linarith
        simp [retainedRow, wrapRow, dropnaRow, Option.filter, hfalse]
  · rintro ⟨ou, ov⟩ p hp
    rcases ou with _ | u
    · rcases ov with _ | v <;>
        simp [retainedRow, wrapRow, dropnaRow, Option.filter] at hp
    · rcases ov with _ | v
      · simp [retainedRow, wrapRow, dropnaRow, Option.filter] at hp
      · have hp' : (if inRange (u - 1, v) = true then some ((u : Q) - 1, v)
            else none) = some p := hp
        by_cases hin : inRange (u - 1, v) = true
        · have hin' : 0 ≤ u - 1 ∧ u - 1 ≤ 1 ∧ 0 ≤ v ∧ v ≤ 1 := of_decide_eq_true hin
          obtain ⟨h1, h2, h3, h4⟩ := hin'
          exact ⟨u, v, rfl, by linarith, by linarith, h3, h4⟩
        · rw [if_neg hin] at hp'
          exact absurd hp' (by simp)

/-- Witness for C10: the raw row `(0.5, 0.5)` is dropped under wrap, while
the raw row `(1.5, 0.5)` is retained with `u ∈ [1, 2]`, `v ∈ [0, 1]`. -/
theorem wrap_applied_before_range_filter_witness :
    retainedRow true (some (1/2), some (1/2)) = none
    ∧ ∃ u v : Q,
        ((some (3/2) : Option Q), (some (1/2) : Option Q)) = (some u, some v)
        ∧ 1 ≤ u ∧ u ≤ 2 ∧ 0 ≤ v ∧ v ≤ 1 := by
  constructor
  · exact wrap_applied_before_range_filter.2.1 (some (1/2), some (1/2)) (1/2)
      rfl (by norm_num)
  · refine wrap_applied_before_range_filter.2.2 (some (3/2), some (1/2)) (1/2, 1/2) ?_
    have hin : inRange ((1 : Q)/2, 1/2) = true := by
      simp only [inRange, decide_eq_true_eq]
      norm_num
    norm_num [retainedRow, wrapRow, dropnaRow, Option.filter, hin]

end CsvToSvg
